import Mathlib

/-!
Verification development for the external-command loader repository.

Part I embeds the one source file of the repository, `hello.js`, as Lean
definitions: its metadata object, its `register` function (which installs a
single text-pattern subscription for the regex `/\/hello(?:\s|$)/`), and the
message handler that subscription carries.

Part II models the External Module Sync & Hot-Reload Loader.  The loader
itself is documented in the design but is not present under `src/`, so every
definition in Part II is modelled from the spec (each doc comment says so):
dispatch subscriptions are numbered handles issued by a counter, a module
file's load behaviour is an abstract outcome per (path, fingerprint), and a
sync cycle reconciles the tracked `ModuleRecord` map against a discovery
snapshot of (path, fingerprint) pairs.
-/

/- ----------------------------------------------------------------- -/
/- Part I: the source file `src/hello.js`                            -/
/- ----------------------------------------------------------------- -/

/-- Whitespace class of the regex escape `\s` restricted to the ASCII range
(space, tab, line feed, vertical tab, form feed, carriage return).  The
messages relevant here only involve these characters. -/
def isJsSpace (c : Char) : Bool :=
  c = ' ' || c = '\t' || c = '\n' || c = '\r' || c = '\x0b' || c = '\x0c'

/-- The literal part of the regex in `hello.js` line 14: the characters of
the text `/hello`. -/
def helloLit : List Char := ['/', 'h', 'e', 'l', 'l', 'o']

/-- One anchored attempt of the regex `\/hello(?:\s|$)` at position `i` of
the text: the six literal characters must occur at `i`, followed either by
the end of the text or by a `\s` character. -/
def matchHelloAt (s : List Char) (i : Nat) : Bool :=
  ((s.drop i).take 6 == helloLit) &&
    (match (s.drop i).drop 6 with
     | [] => true
     | c :: _ => isJsSpace c)

/-- The unanchored regex test `/\/hello(?:\s|$)/.test(s)` from `hello.js`
line 14: some start position in the text yields a match. -/
def helloRegexTest (s : List Char) : Bool :=
  (List.range (s.length + 1)).any (fun i => matchHelloAt s i)

/-- The claim wording for the pattern: the text contains the substring
`/hello` followed by a whitespace character or located at the end. -/
def helloClaimMatch (s : List Char) : Prop :=
  ∃ pre post, s = pre ++ helloLit ++ post ∧
    (post = [] ∨ ∃ c rest, post = c :: rest ∧ isJsSpace c = true)

/-- The `msg.chat` object: only its `id` member is read by `hello.js`. -/
structure Chat where
  id : Int
deriving DecidableEq

/-- The `msg.from` object: only its `first_name` member is read. -/
structure TgUser where
  first_name : String
deriving DecidableEq

/-- An incoming message as `hello.js` sees it.  The `chat` and `sender`
members may be absent (`undefined` in the source language); `sender` models
the member spelled `from` in the source, a reserved word here. -/
structure Msg where
  chat : Option Chat
  sender : Option TgUser
deriving DecidableEq

/-- A thrown error; reading member `f` of an absent object throws a type
error naming `f`. -/
inductive JsError where
  | typeError (f : String)
deriving DecidableEq

/-- One `bot.sendMessage(chatId, text)` call made by a handler. -/
structure SendCall where
  chatId : Int
  text : String
deriving DecidableEq

/-- The greeting text built on `hello.js` line 18. -/
def helloGreeting (n : String) : String :=
  "👋 Hello " ++ n ++ "! This is an external command working perfectly! 🚀"

/-- The handler installed by `hello.js` lines 14-19.  It first reads
`msg.chat.id`, then `msg.from.first_name` (each read throws when the object
is absent), then performs exactly one `sendMessage` to the incoming chat
id. -/
def helloHandler (msg : Msg) : Except JsError (List SendCall) :=
  match msg.chat with
  | none => .error (JsError.typeError "id")
  | some c =>
    match msg.sender with
    | none => .error (JsError.typeError "first_name")
    | some u => .ok [⟨c.id, helloGreeting u.first_name⟩]

/-- A dispatch-layer subscription a module can make: a text-pattern
subscription (`bot.onText`) or an event-kind subscription (`bot.on`). -/
inductive BotSub where
  | onText (test : List Char → Bool) (handler : Msg → Except JsError (List SendCall))
  | onEvent (kind : String)

/-- The dispatch handle passed to a module: it accumulates the
subscriptions made through it. -/
structure BotHandle where
  subs : List BotSub

/-- The `bot.onText(pattern, handler)` capability: appends one text-pattern
subscription. -/
def BotHandle.onText (b : BotHandle) (t : List Char → Bool)
    (h : Msg → Except JsError (List SendCall)) : BotHandle :=
  ⟨b.subs ++ [BotSub.onText t h]⟩

/-- The `register` function of `hello.js` lines 12-20: a single
`bot.onText` call with the `/hello` regex and the greeting handler. -/
def register (b : BotHandle) : BotHandle :=
  b.onText helloRegexTest helloHandler

/-- The metadata object of `hello.js` lines 6-10. -/
structure CmdMetadata where
  name : String
  category : String
  description : String
deriving DecidableEq

/-- The concrete metadata value of `hello.js`. -/
def metadata : CmdMetadata :=
  ⟨"Hello World", "Test", "A simple external command to test the loader"⟩

/-- What a module file exports: the `register` member (a function, when
present) and the optional `metadata` member. -/
structure ModuleExports where
  register : Option (BotHandle → BotHandle)
  metadata : Option CmdMetadata

/-- The `module.exports` object of `hello.js` lines 22-25. -/
def helloExports : ModuleExports :=
  ⟨some register, some metadata⟩

/- ----------------------------------------------------------------- -/
/- Part II: the loader, modelled from the spec                       -/
/- ----------------------------------------------------------------- -/

/-- Modelled from the spec: load status of a ModuleRecord
(`Loaded | Failed | Unloaded`); an `Unloaded` record is deleted from the
tracked map, so cycles only ever store `Loaded` or `Failed` records. -/
inductive LoadStatus where
  | Loaded
  | Failed
  | Unloaded
deriving DecidableEq

/-- Modelled from the spec: a ModuleRecord — source file path, content
fingerprint, load status, and the dispatch-subscription handles owned by
this module. -/
structure ModuleRecord where
  path : String
  fingerprint : Nat
  status : LoadStatus
  subs : List Nat
deriving DecidableEq

/-- Modelled from the spec: the dispatch layer.  Subscription handles are
issued from a counter; `active` are the currently registered handles and
`released` logs every handle that has been removed. -/
structure DispatchState where
  nextId : Nat
  active : List Nat
  released : List Nat
deriving DecidableEq

/-- Well-formedness of the dispatch layer: every handle ever issued is
either still active or has been released, exactly once in total. -/
def DispatchState.wf (d : DispatchState) : Prop :=
  (d.released ++ d.active).Perm (List.range' 0 d.nextId)

/-- Modelled from the spec: issuing `n` fresh subscription handles
(`subscribe-on-text-pattern` calls made by a module during `register`). -/
def issueIds (d : DispatchState) (n : Nat) : DispatchState × List Nat :=
  (⟨d.nextId + n, d.active ++ List.range' d.nextId n, d.released⟩,
   List.range' d.nextId n)

/-- Modelled from the spec: the unload cleanup path — each handle in `ids`
is removed from the active set; removal of an already-absent handle is
tolerated. -/
def removeSubs (d : DispatchState) (ids : List Nat) : DispatchState :=
  ⟨d.nextId,
   d.active.filter (fun x => !ids.contains x),
   d.released ++ d.active.filter (fun x => ids.contains x)⟩

/-- Modelled from the spec: what executing a module's `register` entry
point does — it either returns after making `n` subscriptions, or throws
after having made `n` of them. -/
inductive RegisterOutcome where
  | ok (n : Nat)
  | throws (n : Nat)
deriving DecidableEq

/-- Modelled from the spec: the outcome of `load(path)` on a file with a
given content fingerprint — a `LoadError` (parse failure, top-level throw,
or no callable `register`), or a loaded module with a register outcome. -/
inductive LoadOutcome where
  | loadFail
  | loaded (r : RegisterOutcome)
deriving DecidableEq

/-- Modelled from the spec: the Module Loader as a deterministic outcome
per (path, fingerprint); the fingerprint determines the file bytes, which
determine the behaviour. -/
def ModuleBeh : Type := String → Nat → LoadOutcome

/-- Modelled from the spec: load then register one file.  On `LoadError`
the record is `Failed` with no subscriptions; on success the issued handles
are recorded; on a throw inside `register` the handles issued before the
throw are rolled back (unregistered) and the record is `Failed`. -/
def attemptLoad (beh : ModuleBeh) (d : DispatchState) (p : String) (fp : Nat) :
    DispatchState × ModuleRecord :=
  match beh p fp with
  | .loadFail => (d, ⟨p, fp, .Failed, []⟩)
  | .loaded (.ok n) =>
    let r := issueIds d n
    (r.1, ⟨p, fp, .Loaded, r.2⟩)
  | .loaded (.throws n) =>
    let r := issueIds d n
    (removeSubs r.1 r.2, ⟨p, fp, .Failed, []⟩)

/-- Modelled from the spec: result of walking the tracked records — the
surviving records, the dispatch state, and the counts of load and unload
calls performed. -/
structure ReconcileRes where
  recs : List ModuleRecord
  disp : DispatchState
  loads : Nat
  unloads : Nat
deriving DecidableEq

/-- Modelled from the spec: the fingerprint the discovery snapshot assigns
to a path, if the path is present. -/
def lookupFp (snap : List (String × Nat)) (p : String) : Option Nat :=
  (snap.find? (fun e => e.1 == p)).map Prod.snd

/-- Modelled from the spec: reconciliation over the tracked records.  A
record whose path left the snapshot is unloaded and dropped (removed); one
whose fingerprint is unchanged is kept untouched; one whose fingerprint
differs is unloaded first and then load+register is attempted as if the
path were new. -/
def reconcileOld (beh : ModuleBeh) (snap : List (String × Nat)) :
    List ModuleRecord → DispatchState → ReconcileRes
  | [], d => ⟨[], d, 0, 0⟩
  | r :: rs, d =>
    match lookupFp snap r.path with
    | none =>
      let d1 := removeSubs d r.subs
      let res := reconcileOld beh snap rs d1
      ⟨res.recs, res.disp, res.loads, res.unloads + 1⟩
    | some f =>
      if f = r.fingerprint then
        let res := reconcileOld beh snap rs d
        ⟨r :: res.recs, res.disp, res.loads, res.unloads⟩
      else
        let d1 := removeSubs d r.subs
        let a := attemptLoad beh d1 r.path f
        let res := reconcileOld beh snap rs a.1
        ⟨a.2 :: res.recs, res.disp, res.loads + 1, res.unloads + 1⟩

/-- Modelled from the spec: the added set — every snapshot entry whose path
is not tracked is load+registered and a record is created for it. -/
def loadAdded (beh : ModuleBeh) (tracked : List String) :
    List (String × Nat) → DispatchState → ReconcileRes
  | [], d => ⟨[], d, 0, 0⟩
  | e :: rest, d =>
    if tracked.contains e.1 then loadAdded beh tracked rest d
    else
      let a := attemptLoad beh d e.1 e.2
      let res := loadAdded beh tracked rest a.1
      ⟨a.2 :: res.recs, res.disp, res.loads + 1, res.unloads⟩

/-- Modelled from the spec: the Scheduler state — the canonical map from
source file path to ModuleRecord, plus the dispatch layer. -/
structure SchedState where
  records : List ModuleRecord
  dispatch : DispatchState
deriving DecidableEq

/-- Modelled from the spec: the load/unload call counts of one sync cycle
(the observability part of SyncCycleResult the claims need). -/
structure CycleRes where
  loads : Nat
  unloads : Nat
deriving DecidableEq

/-- Modelled from the spec: one reconciliation pass of the Sync Scheduler —
process removed/changed tracked records, then the added snapshot paths. -/
def syncCycle (beh : ModuleBeh) (s : SchedState) (snap : List (String × Nat)) :
    SchedState × CycleRes :=
  let a := reconcileOld beh snap s.records s.dispatch
  let b := loadAdded beh (s.records.map ModuleRecord.path) snap a.disp
  (⟨a.recs ++ b.recs, b.disp⟩, ⟨a.loads + b.loads, a.unloads + b.unloads⟩)

/-- The multiset of subscription handles owned by a list of records. -/
def activeOwned (recs : List ModuleRecord) : List Nat :=
  (recs.map ModuleRecord.subs).flatten

/-- Modelled from the spec: the loader invariant — the dispatch layer is
well formed, the active subscription handles are exactly (a permutation of)
the handles owned by the tracked records, and a `Failed` record owns no
subscriptions. -/
def invariant (s : SchedState) : Prop :=
  s.dispatch.wf ∧
  s.dispatch.active.Perm (activeOwned s.records) ∧
  ∀ r ∈ s.records, r.status = .Failed → r.subs = []

/-- The scheduler state at process start: nothing tracked, nothing
issued. -/
def initState : SchedState :=
  ⟨[], ⟨0, [], []⟩⟩

/-- Modelled from the spec: the fingerprint of a file — an injective
encoding of the byte sequence, so identical bytes always agree and any
byte change changes the value. -/
def fingerprintBytes : List Nat → Nat
  | [] => 0
  | b :: t => Nat.pair b (fingerprintBytes t) + 1

/-- A concrete module behaviour used to exercise the model: fingerprint 1
registers one subscription, fingerprint 2 fails to load, fingerprint 3
throws after two subscriptions, anything else fails to load. -/
def demoBeh : ModuleBeh := fun _ fp =>
  if fp = 1 then .loaded (.ok 1)
  else if fp = 2 then .loadFail
  else if fp = 3 then .loaded (.throws 2)
  else .loadFail

/-- View of a record list away from one path: for every record at another
path, its path, fingerprint, status and subscription count.  Used to state
that one file's failure does not influence the other files. -/
def recordView (p : String) (recs : List ModuleRecord) :
    List (String × Nat × LoadStatus × Nat) :=
  (recs.filter (fun r => r.path != p)).map
    (fun r => (r.path, r.fingerprint, r.status, r.subs.length))

/-- A second concrete behaviour, agreeing with `demoBeh` away from the path
`"y"`: there it loads five subscriptions instead of failing. -/
def demoBeh2 : ModuleBeh := fun p fp =>
  if p = "y" then .loaded (.ok 5) else demoBeh p fp

/-- A scheduler state with one loaded module at path `"x"`, fingerprint 1,
owning the single subscription handle 0. -/
def demoS1 : SchedState :=
  ⟨[⟨"x", 1, .Loaded, [0]⟩], ⟨1, [0], []⟩⟩

/- ----------------------------------------------------------------- -/
/- Theorems, Part I: the source file `src/hello.js`                  -/
/- ----------------------------------------------------------------- -/

/-- Splitting one anchored match of the hello regex into text data. -/
theorem matchHelloAt_decomp {s : List Char} {i : Nat}
    (h : matchHelloAt s i = true) :
    (s.drop i).take 6 = helloLit ∧
      ((s.drop i).drop 6 = [] ∨
        ∃ c rest, (s.drop i).drop 6 = c :: rest ∧ isJsSpace c = true) := by
  unfold matchHelloAt at h
  rw [Bool.and_eq_true] at h
  obtain ⟨h1, h2⟩ := h
  refine ⟨by exact_mod_cast (beq_iff_eq).mp h1, ?_⟩
  cases htail : (s.drop i).drop 6 with
  | nil => exact Or.inl rfl
  | cons c rest =>
    rw [htail] at h2
    exact Or.inr ⟨c, rest, rfl, h2⟩

/-- C9 (helper): the regex test is exactly the substring characterization. -/
theorem helloRegexTest_iff (s : List Char) :
    helloRegexTest s = true ↔ helloClaimMatch s := by
  constructor
  · intro h
    unfold helloRegexTest at h
    rw [List.any_eq_true] at h
    obtain ⟨i, _, hm⟩ := h
    obtain ⟨h1, h2⟩ := matchHelloAt_decomp hm
    refine ⟨s.take i, (s.drop i).drop 6, ?_, ?_⟩
    · calc s = s.take i ++ s.drop i := (List.take_append_drop i s).symm
        _ = s.take i ++ ((s.drop i).take 6 ++ (s.drop i).drop 6) := by
            rw [List.take_append_drop 6 (s.drop i)]
        _ = s.take i ++ helloLit ++ (s.drop i).drop 6 := by
            rw [h1, List.append_assoc]
    · rcases h2 with h2 | ⟨c, rest, hc, hs⟩
      · exact Or.inl h2
      · exact Or.inr ⟨c, rest, hc, hs⟩
  · rintro ⟨pre, post, rfl, hpost⟩
    unfold helloRegexTest
    rw [List.any_eq_true]
    refine ⟨pre.length, ?_, ?_⟩
    · rw [List.mem_range]
      simp only [List.length_append]
      omega
    · have hdrop : (pre ++ helloLit ++ post).drop pre.length = helloLit ++ post := by
        rw [List.append_assoc]
        exact List.drop_left' rfl
      unfold matchHelloAt
      rw [hdrop, Bool.and_eq_true]
      constructor
      · rw [@List.take_left' Char helloLit post 6 (by decide)]
        decide
      · rw [@List.drop_left' Char helloLit post 6 (by decide)]
        rcases hpost with rfl | ⟨c, rest, rfl, hs⟩
        · rfl
        · exact hs

/-- C9: the text pattern `hello.js` subscribes with is unanchored — it
matches exactly the texts containing the substring `/hello` followed by a
whitespace character or located at the end of the text; in particular it
matches `/hello`, `/hello there` and `say /hello`, and matches neither
`/helloworld` nor `/hello@botname`. -/
theorem helloPatternCharacterization :
    (∀ s : List Char, helloRegexTest s = true ↔ helloClaimMatch s) ∧
    helloRegexTest "/hello".toList = true ∧
    helloRegexTest "/hello there".toList = true ∧
    helloRegexTest "say /hello".toList = true ∧
    helloRegexTest "/helloworld".toList = false ∧
    helloRegexTest "/hello@botname".toList = false :=
  ⟨helloRegexTest_iff, by decide, by decide, by decide, by decide, by decide⟩

/-- C7: for every dispatch handle, the `register` function of `hello.js`
appends exactly one subscription — a text-pattern subscription whose
pattern is the `/hello` regex (which matches the message `/hello`) with the
greeting handler — and makes no other text-pattern or event-kind
subscription. -/
theorem helloRegisterSingleSubscription :
    (∀ b : BotHandle, (register b).subs
      = b.subs ++ [BotSub.onText helloRegexTest helloHandler]) ∧
    helloRegexTest "/hello".toList = true :=
  ⟨fun _ => rfl, by decide⟩

/-- C6: `hello.js` satisfies the module file contract — its exports carry a
`register` member that is a function (the `register` of lines 12-20) and a
`metadata` member whose `name` is the string `Hello World`, whose
`category` is the string `Test`, and whose `description` is a string. -/
theorem helloModuleContract :
    helloExports.register = some register ∧
    helloExports.metadata = some metadata ∧
    metadata.name = "Hello World" ∧
    metadata.category = "Test" ∧
    metadata.description = "A simple external command to test the loader" :=
  ⟨rfl, rfl, rfl, rfl, rfl⟩

/-- C10: the handler `hello.js` installs sends exactly one message,
addressed to the incoming chat id, whenever the message carries `chat.id`
and `from.first_name`; when the `from` member is absent it throws a type
error while reading `first_name` instead of sending anything. -/
theorem helloHandlerPartial :
    (∀ (msg : Msg) (c : Chat) (u : TgUser), msg.chat = some c →
      msg.sender = some u →
      helloHandler msg = .ok [⟨c.id, helloGreeting u.first_name⟩]) ∧
    (∀ (msg : Msg) (c : Chat), msg.chat = some c → msg.sender = none →
      helloHandler msg = .error (JsError.typeError "first_name")) := by
  constructor
  · intro msg c u hc hu
    simp [helloHandler, hc, hu]
  · intro msg c hc hu
    simp [helloHandler, hc, hu]

/-- Witness for C10 at a concrete message with both members present and a
concrete message lacking `from`. -/
theorem helloHandlerPartial_witness :
    helloHandler ⟨some ⟨5⟩, some ⟨"Ada"⟩⟩ = .ok [⟨5, helloGreeting "Ada"⟩] ∧
    helloHandler ⟨some ⟨5⟩, none⟩ = .error (JsError.typeError "first_name") :=
  ⟨helloHandlerPartial.1 ⟨some ⟨5⟩, some ⟨"Ada"⟩⟩ ⟨5⟩ ⟨"Ada"⟩ rfl rfl,
   helloHandlerPartial.2 ⟨some ⟨5⟩, none⟩ ⟨5⟩ rfl rfl⟩

/-- C8: the discovery fingerprint is a deterministic function of the file
bytes, and two byte sequences have the same fingerprint exactly when they
are the same sequence — so any byte change changes the fingerprint. -/
theorem fingerprintInjective :
    ∀ xs ys : List Nat, fingerprintBytes xs = fingerprintBytes ys ↔ xs = ys := by
  intro xs
  induction xs with
  | nil =>
    intro ys
    cases ys with
    | nil => simp
    | cons c u =>
      simp only [fingerprintBytes]
      constructor
      · intro h; omega
      · intro h; cases h
  | cons b t ih =>
    intro ys
    cases ys with
    | nil =>
      simp only [fingerprintBytes]
      constructor
      · intro h; omega
      · intro h; cases h
    | cons c u =>
      simp only [fingerprintBytes, Nat.add_right_cancel_iff,
        Nat.pair_eq_pair, List.cons.injEq]
      rw [ih u]

/- ----------------------------------------------------------------- -/
/- Theorems, Part II: dispatch-layer lemmas                          -/
/- ----------------------------------------------------------------- -/

/-- Bool membership test unpacked. -/
theorem contains_iff {α : Type} [BEq α] [LawfulBEq α] {l : List α} {a : α} :
    l.contains a = true ↔ a ∈ l :=
  List.elem_iff

/-- A well-formed dispatch state has no duplicate active handle. -/
theorem DispatchState.wf_nodup {d : DispatchState} (h : d.wf) :
    d.active.Nodup := by
  have h2 : (d.released ++ d.active).Nodup :=
    h.nodup_iff.mpr (List.nodup_range' 0 d.nextId)
  exact (List.nodup_append.mp h2).2.1

/-- In a well-formed dispatch state every active handle is below the
counter. -/
theorem DispatchState.wf_bound {d : DispatchState} (h : d.wf) :
    ∀ x ∈ d.active, x < d.nextId := by
  intro x hx
  have hm : x ∈ List.range' 0 d.nextId :=
    h.mem_iff.mp (List.mem_append.mpr (Or.inr hx))
  have := List.mem_range'_1.mp hm
  omega

/-- Removing handles keeps the counter. -/
theorem removeSubs_nextId (d : DispatchState) (ids : List Nat) :
    (removeSubs d ids).nextId = d.nextId := rfl

/-- Removing handles preserves dispatch well-formedness: the removed
handles move from the active list to the released log. -/
theorem removeSubs_wf {d : DispatchState} (h : d.wf) (ids : List Nat) :
    (removeSubs d ids).wf := by
  unfold DispatchState.wf removeSubs at *
  refine List.Perm.trans ?_ h
  simp only
  rw [List.append_assoc]
  refine List.Perm.append_left _ ?_
  exact List.filter_append_perm _ _

/-- If the active handles split, up to permutation, into a kept part and
the removed ids, removal leaves exactly the kept part. -/
theorem removeSubs_active_perm {d : DispatchState} {keep ids : List Nat}
    (hn : d.active.Nodup) (hp : d.active.Perm (keep ++ ids)) :
    (removeSubs d ids).active.Perm keep := by
  have hperm := hp.filter (fun x => !ids.contains x)
  rw [List.filter_append] at hperm
  have hids : ids.filter (fun x => !ids.contains x) = [] := by
    rw [List.filter_eq_nil_iff]
    intro a ha
    simpa using ha
  have hkeep : keep.filter (fun x => !ids.contains x) = keep := by
    rw [List.filter_eq_self]
    intro a ha
    have hnd : (keep ++ ids).Nodup := hp.nodup_iff.mp hn
    have hdisj := (List.nodup_append.mp hnd).2.2
    have hni : a ∉ ids := fun hmem => hdisj ha hmem
    simpa using hni
  rw [hids, hkeep, List.append_nil] at hperm
  exact hperm

/-- Handles disjoint from the removed ids survive removal untouched. -/
theorem removeSubs_active_eq {d : DispatchState} {ids : List Nat}
    (h : ∀ x ∈ d.active, x ∉ ids) :
    (removeSubs d ids).active = d.active := by
  unfold removeSubs
  simp only
  rw [List.filter_eq_self]
  intro a ha
  simpa using h a ha

/-- Issuing handles: the new active list and the counter. -/
theorem issueIds_fst_active (d : DispatchState) (n : Nat) :
    (issueIds d n).1.active = d.active ++ (issueIds d n).2 := rfl

/-- Issuing handles advances the counter by the count. -/
theorem issueIds_fst_nextId (d : DispatchState) (n : Nat) :
    (issueIds d n).1.nextId = d.nextId + n := rfl

/-- Issued handles are fresh: at or above the old counter. -/
theorem issueIds_snd_bound {d : DispatchState} {n x : Nat}
    (h : x ∈ (issueIds d n).2) : d.nextId ≤ x ∧ x < d.nextId + n := by
  have := List.mem_range'_1.mp h
  omega

/-- Issuing `n` handles yields `n` handles. -/
theorem issueIds_snd_length (d : DispatchState) (n : Nat) :
    (issueIds d n).2.length = n :=
  List.length_range' _ _ _

/-- Issuing handles preserves dispatch well-formedness. -/
theorem issueIds_wf {d : DispatchState} (h : d.wf) (n : Nat) :
    (issueIds d n).1.wf := by
  unfold DispatchState.wf issueIds at *
  simp only
  have h2 : List.range' 0 d.nextId 1 ++ List.range' (0 + 1 * d.nextId) n 1
      = List.range' 0 (n + d.nextId) 1 := List.range'_append 0 d.nextId n 1
  simp only [Nat.zero_add, Nat.one_mul] at h2
  rw [← List.append_assoc]
  refine List.Perm.trans (h.append_right _) ?_
  rw [h2, Nat.add_comm n d.nextId]

/- ----------------------------------------------------------------- -/
/- Theorems, Part II: attemptLoad and unfolding equations            -/
/- ----------------------------------------------------------------- -/

/-- Owned handles of a cons of records. -/
theorem activeOwned_cons (r : ModuleRecord) (recs : List ModuleRecord) :
    activeOwned (r :: recs) = r.subs ++ activeOwned recs := rfl

/-- Owned handles of an append of record lists. -/
theorem activeOwned_append (l1 l2 : List ModuleRecord) :
    activeOwned (l1 ++ l2) = activeOwned l1 ++ activeOwned l2 := by
  unfold activeOwned
  rw [List.map_append, List.flatten_append]

/-- Membership in the owned handles. -/
theorem mem_activeOwned {x : Nat} {recs : List ModuleRecord} :
    x ∈ activeOwned recs ↔ ∃ r ∈ recs, x ∈ r.subs := by
  unfold activeOwned
  rw [List.mem_flatten]
  constructor
  · rintro ⟨l, hl, hx⟩
    obtain ⟨r, hr, rfl⟩ := List.mem_map.mp hl
    exact ⟨r, hr, hx⟩
  · rintro ⟨r, hr, hx⟩
    exact ⟨r.subs, List.mem_map.mpr ⟨r, hr, rfl⟩, hx⟩

/-- The produced record always carries the requested path. -/
theorem attemptLoad_path (beh : ModuleBeh) (d : DispatchState) (p : String)
    (fp : Nat) : (attemptLoad beh d p fp).2.path = p := by
  unfold attemptLoad
  cases beh p fp with
  | loadFail => rfl
  | loaded r => cases r <;> rfl

/-- The produced record always carries the requested fingerprint. -/
theorem attemptLoad_fingerprint (beh : ModuleBeh) (d : DispatchState)
    (p : String) (fp : Nat) :
    (attemptLoad beh d p fp).2.fingerprint = fp := by
  unfold attemptLoad
  cases beh p fp with
  | loadFail => rfl
  | loaded r => cases r <;> rfl

/-- Load-and-register specification: well-formedness is preserved, the
counter never decreases, the new active handles are the old ones plus the
subscriptions of the produced record, a `Failed` record owns nothing, and
every owned handle of the produced record is fresh. -/
theorem attemptLoad_spec (beh : ModuleBeh) (d : DispatchState) (p : String)
    (fp : Nat) (hwf : d.wf) :
    (attemptLoad beh d p fp).1.wf ∧
    d.nextId ≤ (attemptLoad beh d p fp).1.nextId ∧
    (attemptLoad beh d p fp).1.active.Perm
      (d.active ++ (attemptLoad beh d p fp).2.subs) ∧
    ((attemptLoad beh d p fp).2.status = .Failed →
      (attemptLoad beh d p fp).2.subs = []) ∧
    (∀ x ∈ (attemptLoad beh d p fp).2.subs, d.nextId ≤ x) := by
  unfold attemptLoad
  cases beh p fp with
  | loadFail =>
    simp only
    exact ⟨hwf, Nat.le_refl _, by simp, by simp, by simp⟩
  | loaded r =>
    cases r with
    | ok n =>
      simp only
      refine ⟨issueIds_wf hwf n, ?_, ?_, ?_, ?_⟩
      · rw [issueIds_fst_nextId]; omega
      · rw [issueIds_fst_active]
      · intro h; cases h
      · intro x hx; exact (issueIds_snd_bound hx).1
    | throws n =>
      simp only
      have hact : (removeSubs (issueIds d n).1 (issueIds d n).2).active
          = d.active := by
        show (issueIds d n).1.active.filter
          (fun x => !(issueIds d n).2.contains x) = d.active
        rw [issueIds_fst_active, List.filter_append]
        have h1 : d.active.filter (fun x => !(issueIds d n).2.contains x)
            = d.active := by
          rw [List.filter_eq_self]
          intro a ha
          have hb := DispatchState.wf_bound hwf a ha
          have hni : a ∉ (issueIds d n).2 := fun hm => by
            have := (issueIds_snd_bound hm).1
            omega
          simpa using hni
        have h2 : (issueIds d n).2.filter
            (fun x => !(issueIds d n).2.contains x) = [] := by
          rw [List.filter_eq_nil_iff]
          intro a ha
          simpa using ha
        rw [h1, h2, List.append_nil]
      refine ⟨removeSubs_wf (issueIds_wf hwf n) _, ?_, ?_, by simp, ?_⟩
      · rw [removeSubs_nextId, issueIds_fst_nextId]; omega
      · rw [hact]; simp
      · intro x hx; cases hx

/-- Unfolding: reconciling an empty record list does nothing. -/
theorem reconcileOld_nil (beh : ModuleBeh) (snap : List (String × Nat))
    (d : DispatchState) : reconcileOld beh snap [] d = ⟨[], d, 0, 0⟩ := rfl

/-- Unfolding: a tracked record whose path left the snapshot is unloaded
and dropped. -/
theorem reconcileOld_cons_removed (beh : ModuleBeh) (snap : List (String × Nat))
    (r : ModuleRecord) (rs : List ModuleRecord) (d : DispatchState)
    (h : lookupFp snap r.path = none) :
    reconcileOld beh snap (r :: rs) d =
      ⟨(reconcileOld beh snap rs (removeSubs d r.subs)).recs,
       (reconcileOld beh snap rs (removeSubs d r.subs)).disp,
       (reconcileOld beh snap rs (removeSubs d r.subs)).loads,
       (reconcileOld beh snap rs (removeSubs d r.subs)).unloads + 1⟩ := by
  simp only [reconcileOld, h]

/-- Unfolding: a tracked record with an unchanged fingerprint is kept
untouched. -/
theorem reconcileOld_cons_kept (beh : ModuleBeh) (snap : List (String × Nat))
    (r : ModuleRecord) (rs : List ModuleRecord) (d : DispatchState) (f : Nat)
    (h : lookupFp snap r.path = some f) (hf : f = r.fingerprint) :
    reconcileOld beh snap (r :: rs) d =
      ⟨r :: (reconcileOld beh snap rs d).recs,
       (reconcileOld beh snap rs d).disp,
       (reconcileOld beh snap rs d).loads,
       (reconcileOld beh snap rs d).unloads⟩ := by
  simp only [reconcileOld, h, if_pos hf]

/-- Unfolding: a tracked record with a changed fingerprint is unloaded and
then load+register is attempted for the new fingerprint. -/
theorem reconcileOld_cons_changed (beh : ModuleBeh) (snap : List (String × Nat))
    (r : ModuleRecord) (rs : List ModuleRecord) (d : DispatchState) (f : Nat)
    (h : lookupFp snap r.path = some f) (hf : ¬f = r.fingerprint) :
    reconcileOld beh snap (r :: rs) d =
      ⟨(attemptLoad beh (removeSubs d r.subs) r.path f).2 ::
        (reconcileOld beh snap rs
          (attemptLoad beh (removeSubs d r.subs) r.path f).1).recs,
       (reconcileOld beh snap rs
         (attemptLoad beh (removeSubs d r.subs) r.path f).1).disp,
       (reconcileOld beh snap rs
         (attemptLoad beh (removeSubs d r.subs) r.path f).1).loads + 1,
       (reconcileOld beh snap rs
         (attemptLoad beh (removeSubs d r.subs) r.path f).1).unloads + 1⟩ := by
  simp only [reconcileOld, h, if_neg hf]

/-- Unfolding: an empty snapshot adds nothing. -/
theorem loadAdded_nil (beh : ModuleBeh) (tracked : List String)
    (d : DispatchState) : loadAdded beh tracked [] d = ⟨[], d, 0, 0⟩ := rfl

/-- Unfolding: a snapshot entry whose path is tracked is skipped by the
added pass. -/
theorem loadAdded_cons_tracked (beh : ModuleBeh) (tracked : List String)
    (e : String × Nat) (rest : List (String × Nat)) (d : DispatchState)
    (h : tracked.contains e.1 = true) :
    loadAdded beh tracked (e :: rest) d = loadAdded beh tracked rest d := by
  simp only [loadAdded, h, if_pos]

/-- Unfolding: a snapshot entry with an untracked path is load+registered
and a record is created for it. -/
theorem loadAdded_cons_new (beh : ModuleBeh) (tracked : List String)
    (e : String × Nat) (rest : List (String × Nat)) (d : DispatchState)
    (h : tracked.contains e.1 = false) :
    loadAdded beh tracked (e :: rest) d =
      ⟨(attemptLoad beh d e.1 e.2).2 ::
        (loadAdded beh tracked rest (attemptLoad beh d e.1 e.2).1).recs,
       (loadAdded beh tracked rest (attemptLoad beh d e.1 e.2).1).disp,
       (loadAdded beh tracked rest (attemptLoad beh d e.1 e.2).1).loads + 1,
       (loadAdded beh tracked rest (attemptLoad beh d e.1 e.2).1).unloads⟩ := by
  simp only [loadAdded, h]
  rfl

/-- Projection form of the removed-record unfolding. -/
theorem reconcileOld_removed_proj (beh : ModuleBeh) (snap : List (String × Nat))
    (r : ModuleRecord) (rs : List ModuleRecord) (d : DispatchState)
    (h : lookupFp snap r.path = none) :
    (reconcileOld beh snap (r :: rs) d).recs
        = (reconcileOld beh snap rs (removeSubs d r.subs)).recs ∧
    (reconcileOld beh snap (r :: rs) d).disp
        = (reconcileOld beh snap rs (removeSubs d r.subs)).disp ∧
    (reconcileOld beh snap (r :: rs) d).loads
        = (reconcileOld beh snap rs (removeSubs d r.subs)).loads ∧
    (reconcileOld beh snap (r :: rs) d).unloads
        = (reconcileOld beh snap rs (removeSubs d r.subs)).unloads + 1 := by
  rw [reconcileOld_cons_removed beh snap r rs d h]
  exact ⟨rfl, rfl, rfl, rfl⟩

/-- Projection form of the kept-record unfolding. -/
theorem reconcileOld_kept_proj (beh : ModuleBeh) (snap : List (String × Nat))
    (r : ModuleRecord) (rs : List ModuleRecord) (d : DispatchState) (f : Nat)
    (h : lookupFp snap r.path = some f) (hf : f = r.fingerprint) :
    (reconcileOld beh snap (r :: rs) d).recs
        = r :: (reconcileOld beh snap rs d).recs ∧
    (reconcileOld beh snap (r :: rs) d).disp
        = (reconcileOld beh snap rs d).disp ∧
    (reconcileOld beh snap (r :: rs) d).loads
        = (reconcileOld beh snap rs d).loads ∧
    (reconcileOld beh snap (r :: rs) d).unloads
        = (reconcileOld beh snap rs d).unloads := by
  rw [reconcileOld_cons_kept beh snap r rs d f h hf]
  exact ⟨rfl, rfl, rfl, rfl⟩

/-- Projection form of the changed-record unfolding. -/
theorem reconcileOld_changed_proj (beh : ModuleBeh) (snap : List (String × Nat))
    (r : ModuleRecord) (rs : List ModuleRecord) (d : DispatchState) (f : Nat)
    (h : lookupFp snap r.path = some f) (hf : ¬f = r.fingerprint) :
    (reconcileOld beh snap (r :: rs) d).recs
        = (attemptLoad beh (removeSubs d r.subs) r.path f).2 ::
          (reconcileOld beh snap rs
            (attemptLoad beh (removeSubs d r.subs) r.path f).1).recs ∧
    (reconcileOld beh snap (r :: rs) d).disp
        = (reconcileOld beh snap rs
            (attemptLoad beh (removeSubs d r.subs) r.path f).1).disp ∧
    (reconcileOld beh snap (r :: rs) d).loads
        = (reconcileOld beh snap rs
            (attemptLoad beh (removeSubs d r.subs) r.path f).1).loads + 1 ∧
    (reconcileOld beh snap (r :: rs) d).unloads
        = (reconcileOld beh snap rs
            (attemptLoad beh (removeSubs d r.subs) r.path f).1).unloads + 1 := by
  rw [reconcileOld_cons_changed beh snap r rs d f h hf]
  exact ⟨rfl, rfl, rfl, rfl⟩

/-- Projection form of the tracked-entry unfolding of the added pass. -/
theorem loadAdded_tracked_proj (beh : ModuleBeh) (tracked : List String)
    (e : String × Nat) (rest : List (String × Nat)) (d : DispatchState)
    (h : tracked.contains e.1 = true) :
    (loadAdded beh tracked (e :: rest) d).recs
        = (loadAdded beh tracked rest d).recs ∧
    (loadAdded beh tracked (e :: rest) d).disp
        = (loadAdded beh tracked rest d).disp ∧
    (loadAdded beh tracked (e :: rest) d).loads
        = (loadAdded beh tracked rest d).loads ∧
    (loadAdded beh tracked (e :: rest) d).unloads
        = (loadAdded beh tracked rest d).unloads := by
  rw [loadAdded_cons_tracked beh tracked e rest d h]
  exact ⟨rfl, rfl, rfl, rfl⟩

/-- Projection form of the new-entry unfolding of the added pass. -/
theorem loadAdded_new_proj (beh : ModuleBeh) (tracked : List String)
    (e : String × Nat) (rest : List (String × Nat)) (d : DispatchState)
    (h : tracked.contains e.1 = false) :
    (loadAdded beh tracked (e :: rest) d).recs
        = (attemptLoad beh d e.1 e.2).2 ::
          (loadAdded beh tracked rest (attemptLoad beh d e.1 e.2).1).recs ∧
    (loadAdded beh tracked (e :: rest) d).disp
        = (loadAdded beh tracked rest (attemptLoad beh d e.1 e.2).1).disp ∧
    (loadAdded beh tracked (e :: rest) d).loads
        = (loadAdded beh tracked rest (attemptLoad beh d e.1 e.2).1).loads + 1 ∧
    (loadAdded beh tracked (e :: rest) d).unloads
        = (loadAdded beh tracked rest (attemptLoad beh d e.1 e.2).1).unloads := by
  rw [loadAdded_cons_new beh tracked e rest d h]
  exact ⟨rfl, rfl, rfl, rfl⟩

/-- Reconciliation specification over the tracked records.  Relative to a
frame `other` of handles owned elsewhere: well-formedness is preserved, the
counter never decreases, the active handles end up as the frame plus the
handles owned by the surviving records, `Failed` records own nothing, and
every surviving record is either an untouched input record whose snapshot
fingerprint matches, or one whose owned handles are all fresh. -/
theorem reconcileOld_spec (beh : ModuleBeh) (snap : List (String × Nat)) :
    ∀ (rs : List ModuleRecord) (d : DispatchState) (other : List Nat),
      d.wf →
      d.active.Perm (other ++ activeOwned rs) →
      (∀ r ∈ rs, r.status = .Failed → r.subs = []) →
      (reconcileOld beh snap rs d).disp.wf ∧
      d.nextId ≤ (reconcileOld beh snap rs d).disp.nextId ∧
      (reconcileOld beh snap rs d).disp.active.Perm
        (other ++ activeOwned (reconcileOld beh snap rs d).recs) ∧
      (∀ r ∈ (reconcileOld beh snap rs d).recs,
        r.status = .Failed → r.subs = []) ∧
      (∀ r ∈ (reconcileOld beh snap rs d).recs,
        (r ∈ rs ∧ lookupFp snap r.path = some r.fingerprint) ∨
        ∀ x ∈ r.subs, d.nextId ≤ x) := by
  intro rs
  induction rs with
  | nil =>
    intro d other hwf hperm _
    rw [reconcileOld_nil]
    refine ⟨hwf, Nat.le_refl _, hperm, ?_, ?_⟩
    · intro r hr; cases hr
    · intro r hr; cases hr
  | cons r rs ih =>
    intro d other hwf hperm hst
    rw [activeOwned_cons] at hperm
    cases hlk : lookupFp snap r.path with
    | none =>
      obtain ⟨er, ed, _, _⟩ := reconcileOld_removed_proj beh snap r rs d hlk
      rw [er, ed]
      have hd1wf : (removeSubs d r.subs).wf := removeSubs_wf hwf r.subs
      have hp1 : d.active.Perm ((other ++ activeOwned rs) ++ r.subs) := by
        refine hperm.trans ?_
        rw [List.append_assoc]
        exact List.Perm.append_left _ List.perm_append_comm
      have hd1p : (removeSubs d r.subs).active.Perm (other ++ activeOwned rs) :=
        removeSubs_active_perm (DispatchState.wf_nodup hwf) hp1
      obtain ⟨h1, h2, h3, h4, h5⟩ := ih (removeSubs d r.subs) other hd1wf hd1p
        (fun q hq => hst q (List.mem_cons_of_mem r hq))
      refine ⟨h1, ?_, h3, h4, ?_⟩
      · rw [removeSubs_nextId] at h2; exact h2
      · intro q hq
        rcases h5 q hq with ⟨hmem, hl⟩ | hfresh
        · exact Or.inl ⟨List.mem_cons_of_mem r hmem, hl⟩
        · refine Or.inr (fun x hx => ?_)
          have := hfresh x hx
          rw [removeSubs_nextId] at this
          exact this
    | some f =>
      by_cases hf : f = r.fingerprint
      · obtain ⟨er, ed, _, _⟩ := reconcileOld_kept_proj beh snap r rs d f hlk hf
        rw [er, ed]
        have hp1 : d.active.Perm ((other ++ r.subs) ++ activeOwned rs) := by
          refine hperm.trans ?_
          rw [List.append_assoc]
        obtain ⟨h1, h2, h3, h4, h5⟩ := ih d (other ++ r.subs) hwf hp1
          (fun q hq => hst q (List.mem_cons_of_mem r hq))
        refine ⟨h1, h2, ?_, ?_, ?_⟩
        · rw [activeOwned_cons]
          refine h3.trans ?_
          rw [List.append_assoc]
        · intro q hq
          rcases List.mem_cons.mp hq with rfl | hq
          · exact hst q (List.mem_cons_self q rs)
          · exact h4 q hq
        · intro q hq
          rcases List.mem_cons.mp hq with rfl | hq
          · exact Or.inl ⟨List.mem_cons_self q rs, by rw [hlk, hf]⟩
          · rcases h5 q hq with ⟨hmem, hl⟩ | hfresh
            · exact Or.inl ⟨List.mem_cons_of_mem r hmem, hl⟩
            · exact Or.inr hfresh
      · obtain ⟨er, ed, _, _⟩ := reconcileOld_changed_proj beh snap r rs d f hlk hf
        rw [er, ed]
        have hd1wf : (removeSubs d r.subs).wf := removeSubs_wf hwf r.subs
        have hp1 : d.active.Perm ((other ++ activeOwned rs) ++ r.subs) := by
          refine hperm.trans ?_
          rw [List.append_assoc]
          exact List.Perm.append_left _ List.perm_append_comm
        have hd1p : (removeSubs d r.subs).active.Perm
            (other ++ activeOwned rs) :=
          removeSubs_active_perm (DispatchState.wf_nodup hwf) hp1
        obtain ⟨haw, han, hap, haf, hax⟩ :=
          attemptLoad_spec beh (removeSubs d r.subs) r.path f hd1wf
        have hp2 : (attemptLoad beh (removeSubs d r.subs) r.path f).1.active.Perm
            ((other ++ (attemptLoad beh (removeSubs d r.subs) r.path f).2.subs)
              ++ activeOwned rs) := by
          refine hap.trans ?_
          refine (hd1p.append_right _).trans ?_
          rw [List.append_assoc, List.append_assoc]
          exact List.Perm.append_left _ List.perm_append_comm
        obtain ⟨h1, h2, h3, h4, h5⟩ :=
          ih (attemptLoad beh (removeSubs d r.subs) r.path f).1
            (other ++ (attemptLoad beh (removeSubs d r.subs) r.path f).2.subs)
            haw hp2 (fun q hq => hst q (List.mem_cons_of_mem r hq))
        have hdn : (removeSubs d r.subs).nextId = d.nextId :=
          removeSubs_nextId d r.subs
        refine ⟨h1, by omega, ?_, ?_, ?_⟩
        · rw [activeOwned_cons]
          refine h3.trans ?_
          rw [List.append_assoc]
        · intro q hq
          rcases List.mem_cons.mp hq with rfl | hq
          · exact haf
          · exact h4 q hq
        · intro q hq
          rcases List.mem_cons.mp hq with rfl | hq
          · refine Or.inr (fun x hx => ?_)
            have := hax x hx
            omega
          · rcases h5 q hq with ⟨hmem, hl⟩ | hfresh
            · exact Or.inl ⟨List.mem_cons_of_mem r hmem, hl⟩
            · refine Or.inr (fun x hx => ?_)
              have := hfresh x hx
              omega

/-- Added-pass specification: well-formedness is preserved, the counter
never decreases, new active handles are the old ones plus the handles owned
by the created records, `Failed` records own nothing, and every handle
owned by a created record is fresh. -/
theorem loadAdded_spec (beh : ModuleBeh) (tracked : List String) :
    ∀ (snap : List (String × Nat)) (d : DispatchState),
      d.wf →
      (loadAdded beh tracked snap d).disp.wf ∧
      d.nextId ≤ (loadAdded beh tracked snap d).disp.nextId ∧
      (loadAdded beh tracked snap d).disp.active.Perm
        (d.active ++ activeOwned (loadAdded beh tracked snap d).recs) ∧
      (∀ r ∈ (loadAdded beh tracked snap d).recs,
        r.status = .Failed → r.subs = []) ∧
      (∀ r ∈ (loadAdded beh tracked snap d).recs,
        ∀ x ∈ r.subs, d.nextId ≤ x) := by
  intro snap
  induction snap with
  | nil =>
    intro d hwf
    rw [loadAdded_nil]
    refine ⟨hwf, Nat.le_refl _, by simp [activeOwned], ?_, ?_⟩
    · intro r hr; cases hr
    · intro r hr; cases hr
  | cons e rest ih =>
    intro d hwf
    cases htr : tracked.contains e.1 with
    | true =>
      obtain ⟨er, ed, _, _⟩ := loadAdded_tracked_proj beh tracked e rest d htr
      rw [er, ed]
      exact ih d hwf
    | false =>
      obtain ⟨er, ed, _, _⟩ := loadAdded_new_proj beh tracked e rest d htr
      rw [er, ed]
      obtain ⟨haw, han, hap, haf, hax⟩ := attemptLoad_spec beh d e.1 e.2 hwf
      obtain ⟨h1, h2, h3, h4, h5⟩ := ih (attemptLoad beh d e.1 e.2).1 haw
      refine ⟨h1, by omega, ?_, ?_, ?_⟩
      · rw [activeOwned_cons]
        refine h3.trans ?_
        refine (hap.append_right _).trans ?_
        rw [List.append_assoc]
      · intro q hq
        rcases List.mem_cons.mp hq with rfl | hq
        · exact haf
        · exact h4 q hq
      · intro q hq
        rcases List.mem_cons.mp hq with rfl | hq
        · exact hax
        · intro x hx
          have := h5 q hq x hx
          omega

/-- One sync cycle preserves the loader invariant. -/
theorem syncCycle_invariant (beh : ModuleBeh) (s : SchedState)
    (snap : List (String × Nat)) (h : invariant s) :
    invariant (syncCycle beh s snap).1 := by
  obtain ⟨hwf, hperm, hst⟩ := h
  obtain ⟨h1, _, h3, h4, _⟩ := reconcileOld_spec beh snap s.records s.dispatch
    [] hwf (by simpa using hperm) hst
  obtain ⟨g1, _, g3, g4, _⟩ := loadAdded_spec beh
    (s.records.map ModuleRecord.path) snap
    (reconcileOld beh snap s.records s.dispatch).disp h1
  refine ⟨g1, ?_, ?_⟩
  · show (loadAdded beh (s.records.map ModuleRecord.path) snap
      (reconcileOld beh snap s.records s.dispatch).disp).disp.active.Perm
        (activeOwned ((reconcileOld beh snap s.records s.dispatch).recs ++
          (loadAdded beh (s.records.map ModuleRecord.path) snap
            (reconcileOld beh snap s.records s.dispatch).disp).recs))
    rw [activeOwned_append]
    refine g3.trans ?_
    refine (h3.append_right _).trans ?_
    simp
  · intro r hr
    rcases List.mem_append.mp hr with hr | hr
    · exact h4 r hr
    · exact g4 r hr

/-- The start state satisfies the loader invariant. -/
theorem initState_invariant : invariant initState := by
  refine ⟨?_, ?_, ?_⟩
  · show (([] : List Nat) ++ []).Perm (List.range' 0 0)
    decide
  · show ([] : List Nat).Perm (activeOwned [])
    decide
  · intro r hr; cases hr

/-- When the owned handles of a record list have no duplicate, a handle
determines its owning record. -/
theorem owned_nodup_unique {rs : List ModuleRecord}
    (h : (activeOwned rs).Nodup) :
    ∀ r1 ∈ rs, ∀ r2 ∈ rs, ∀ x, x ∈ r1.subs → x ∈ r2.subs → r1 = r2 := by
  induction rs with
  | nil => intro r1 h1; cases h1
  | cons r t ih =>
    rw [activeOwned_cons, List.nodup_append] at h
    intro r1 h1 r2 h2 x hx1 hx2
    rcases List.mem_cons.mp h1 with he1 | ht1
    · rcases List.mem_cons.mp h2 with he2 | ht2
      · rw [he1, he2]
      · have hm : x ∈ activeOwned t := mem_activeOwned.mpr ⟨r2, ht2, hx2⟩
        exact absurd hm (fun hm2 => h.2.2 (he1 ▸ hx1) hm2)
    · rcases List.mem_cons.mp h2 with he2 | ht2
      · have hm : x ∈ activeOwned t := mem_activeOwned.mpr ⟨r1, ht1, hx1⟩
        exact absurd hm (fun hm2 => h.2.2 (he2 ▸ hx2) hm2)
      · exact ih h.2.1 r1 ht1 r2 ht2 x hx1 hx2

/-- Under the invariant the owned handles have no duplicate. -/
theorem invariant_owned_nodup {s : SchedState} (h : invariant s) :
    (activeOwned s.records).Nodup :=
  h.2.1.nodup_iff.mp (DispatchState.wf_nodup h.1)

/-- C1: for every sync cycle the loader invariant is preserved from the
start state on — after reconciliation the active dispatch subscriptions are
exactly the handles owned by the tracked records (the union over the loaded
modules, since failed records own nothing); under the invariant each active
handle belongs to exactly one record, and the released log holds each
released handle exactly once and never an active one. -/
theorem dispatchSubscriptionInvariant :
    invariant initState ∧
    (∀ (beh : ModuleBeh) (s : SchedState) (snap : List (String × Nat)),
      invariant s → invariant (syncCycle beh s snap).1) ∧
    (∀ s : SchedState, invariant s →
      (∀ x, x ∈ s.dispatch.active ↔ ∃ r ∈ s.records, x ∈ r.subs) ∧
      (∀ r1 ∈ s.records, ∀ r2 ∈ s.records, ∀ x,
        x ∈ r1.subs → x ∈ r2.subs → r1 = r2) ∧
      s.dispatch.released.Nodup ∧
      (∀ x ∈ s.dispatch.released, x ∉ s.dispatch.active)) := by
  refine ⟨initState_invariant, syncCycle_invariant, ?_⟩
  intro s h
  have hwhole : (s.dispatch.released ++ s.dispatch.active).Nodup :=
    h.1.nodup_iff.mpr (List.nodup_range' 0 s.dispatch.nextId)
  have hsplit := List.nodup_append.mp hwhole
  refine ⟨?_, owned_nodup_unique (invariant_owned_nodup h), hsplit.1, ?_⟩
  · intro x
    rw [h.2.1.mem_iff, mem_activeOwned]
  · intro x hrel hact
    exact hsplit.2.2 hrel hact

/-- Witness for C1: the invariant holds concretely after a cycle that loads
one module from the empty start state. -/
theorem dispatchSubscriptionInvariant_witness :
    invariant (syncCycle demoBeh initState [("x", 1)]).1 :=
  dispatchSubscriptionInvariant.2.1 demoBeh initState [("x", 1)]
    dispatchSubscriptionInvariant.1

/-- C2: a module whose `register` entry point throws during registration
ends as a `LoadError` record (`Failed`) owning no subscriptions, and every
subscription it made before throwing is unregistered — the active set is
exactly what it was before the attempt, so the file has zero active
subscriptions. -/
theorem registerThrowRollback (beh : ModuleBeh) (d : DispatchState)
    (p : String) (fp n : Nat) (hwf : d.wf)
    (hb : beh p fp = .loaded (.throws n)) :
    (attemptLoad beh d p fp).2.status = .Failed ∧
    (attemptLoad beh d p fp).2.subs = [] ∧
    (attemptLoad beh d p fp).1.active = d.active := by
  unfold attemptLoad
  rw [hb]
  refine ⟨rfl, rfl, ?_⟩
  show (issueIds d n).1.active.filter
    (fun x => !(issueIds d n).2.contains x) = d.active
  rw [issueIds_fst_active, List.filter_append]
  have h1 : d.active.filter (fun x => !(issueIds d n).2.contains x)
      = d.active := by
    rw [List.filter_eq_self]
    intro a ha
    have hbnd := DispatchState.wf_bound hwf a ha
    have hni : a ∉ (issueIds d n).2 := fun hm => by
      have := (issueIds_snd_bound hm).1
      omega
    simpa using hni
  have h2 : (issueIds d n).2.filter
      (fun x => !(issueIds d n).2.contains x) = [] := by
    rw [List.filter_eq_nil_iff]
    intro a ha
    simpa using ha
  rw [h1, h2, List.append_nil]

/-- Witness for C2: the rollback at a concrete dispatch state and a module
that throws after two subscriptions. -/
theorem registerThrowRollback_witness :
    (attemptLoad demoBeh ⟨1, [0], []⟩ "x" 3).2.status = .Failed ∧
    (attemptLoad demoBeh ⟨1, [0], []⟩ "x" 3).2.subs = [] ∧
    (attemptLoad demoBeh ⟨1, [0], []⟩ "x" 3).1.active = [0] :=
  registerThrowRollback demoBeh ⟨1, [0], []⟩ "x" 3 2
    (by unfold DispatchState.wf; decide) (by decide)

/-- A snapshot entry is found by the lookup when the snapshot keys have no
duplicate. -/
theorem lookupFp_of_mem :
    ∀ {snap : List (String × Nat)}, (snap.map Prod.fst).Nodup →
      ∀ {e : String × Nat}, e ∈ snap → lookupFp snap e.1 = some e.2 := by
  intro snap
  induction snap with
  | nil => intro _ e he; cases he
  | cons a t ih =>
    intro hnd e he
    rw [List.map_cons, List.nodup_cons] at hnd
    rcases List.mem_cons.mp he with rfl | ht
    · unfold lookupFp
      rw [List.find?_cons_of_pos t (by simp)]
      rfl
    · have hne : ¬(a.1 == e.1) = true := by
        intro hbeq
        exact hnd.1 (by
          rw [beq_iff_eq] at hbeq
          rw [hbeq]
          exact List.mem_map.mpr ⟨e, ht, rfl⟩)
      unfold lookupFp at *
      rw [List.find?_cons_of_neg t hne]
      exact ih hnd.2 ht

/-- A path present in the snapshot is found by the lookup. -/
theorem lookupFp_isSome_of_mem :
    ∀ {snap : List (String × Nat)} {e : String × Nat}, e ∈ snap →
      ∃ f, lookupFp snap e.1 = some f := by
  intro snap
  induction snap with
  | nil => intro e he; cases he
  | cons a t ih =>
    intro e he
    cases hbeq : (a.1 == e.1) with
    | true =>
      refine ⟨a.2, ?_⟩
      unfold lookupFp
      rw [List.find?_cons_of_pos t hbeq]
      rfl
    | false =>
      rcases List.mem_cons.mp he with rfl | ht
      · simp at hbeq
      · obtain ⟨f, hf⟩ := ih ht
        refine ⟨f, ?_⟩
        unfold lookupFp at *
        rw [List.find?_cons_of_neg t (by simp [hbeq])]
        exact hf

/-- The paths surviving reconciliation are exactly the tracked paths still
present in the snapshot, in order. -/
theorem reconcileOld_pathsEq (beh : ModuleBeh) (snap : List (String × Nat)) :
    ∀ (rs : List ModuleRecord) (d : DispatchState),
      (reconcileOld beh snap rs d).recs.map ModuleRecord.path
        = (rs.filter (fun r => (lookupFp snap r.path).isSome)).map
            ModuleRecord.path := by
  intro rs
  induction rs with
  | nil => intro d; rw [reconcileOld_nil]; rfl
  | cons r rs ih =>
    intro d
    cases hlk : lookupFp snap r.path with
    | none =>
      obtain ⟨er, _, _, _⟩ := reconcileOld_removed_proj beh snap r rs d hlk
      rw [er, ih, List.filter_cons_of_neg (by simp [hlk])]
    | some f =>
      by_cases hf : f = r.fingerprint
      · obtain ⟨er, _, _, _⟩ := reconcileOld_kept_proj beh snap r rs d f hlk hf
        rw [er, List.filter_cons_of_pos (by simp [hlk]), List.map_cons,
          List.map_cons, ih]
      · obtain ⟨er, _, _, _⟩ :=
          reconcileOld_changed_proj beh snap r rs d f hlk hf
        rw [er, List.filter_cons_of_pos (by simp [hlk]), List.map_cons,
          List.map_cons, ih, attemptLoad_path]

/-- The records created by the added pass are exactly the untracked
snapshot entries, in order. -/
theorem loadAdded_pathsEq (beh : ModuleBeh) (tracked : List String) :
    ∀ (snap : List (String × Nat)) (d : DispatchState),
      (loadAdded beh tracked snap d).recs.map ModuleRecord.path
        = (snap.filter (fun e => !tracked.contains e.1)).map Prod.fst := by
  intro snap
  induction snap with
  | nil => intro d; rw [loadAdded_nil]; rfl
  | cons e rest ih =>
    intro d
    cases htr : tracked.contains e.1 with
    | true =>
      obtain ⟨er, _, _, _⟩ := loadAdded_tracked_proj beh tracked e rest d htr
      rw [er, ih, List.filter_cons_of_neg (by simpa using contains_iff.mp htr)]
    | false =>
      obtain ⟨er, _, _, _⟩ := loadAdded_new_proj beh tracked e rest d htr
      have hni : e.1 ∉ tracked := fun hm => by
        rw [contains_iff.mpr hm] at htr
        cases htr
      rw [er, List.filter_cons_of_pos (by simpa using hni), List.map_cons,
        List.map_cons, ih, attemptLoad_path]

/-- Every record surviving reconciliation carries the fingerprint its path
has in the snapshot. -/
theorem reconcileOld_fpMatch (beh : ModuleBeh) (snap : List (String × Nat)) :
    ∀ (rs : List ModuleRecord) (d : DispatchState),
      ∀ rec ∈ (reconcileOld beh snap rs d).recs,
        lookupFp snap rec.path = some rec.fingerprint := by
  intro rs
  induction rs with
  | nil => intro d rec hrec; rw [reconcileOld_nil] at hrec; cases hrec
  | cons r rs ih =>
    intro d rec hrec
    cases hlk : lookupFp snap r.path with
    | none =>
      obtain ⟨er, _, _, _⟩ := reconcileOld_removed_proj beh snap r rs d hlk
      rw [er] at hrec
      exact ih _ rec hrec
    | some f =>
      by_cases hf : f = r.fingerprint
      · obtain ⟨er, _, _, _⟩ := reconcileOld_kept_proj beh snap r rs d f hlk hf
        rw [er] at hrec
        rcases List.mem_cons.mp hrec with rfl | hrec
        · rw [hlk, hf]
        · exact ih _ rec hrec
      · obtain ⟨er, _, _, _⟩ :=
          reconcileOld_changed_proj beh snap r rs d f hlk hf
        rw [er] at hrec
        rcases List.mem_cons.mp hrec with rfl | hrec
        · rw [attemptLoad_path, attemptLoad_fingerprint, hlk]
        · exact ih _ rec hrec

/-- Every record created by the added pass stems from a snapshot entry that
was not tracked. -/
theorem loadAdded_src (beh : ModuleBeh) (tracked : List String) :
    ∀ (snap : List (String × Nat)) (d : DispatchState),
      ∀ rec ∈ (loadAdded beh tracked snap d).recs,
        ∃ e ∈ snap, rec.path = e.1 ∧ rec.fingerprint = e.2 := by
  intro snap
  induction snap with
  | nil => intro d rec hrec; rw [loadAdded_nil] at hrec; cases hrec
  | cons e rest ih =>
    intro d rec hrec
    cases htr : tracked.contains e.1 with
    | true =>
      obtain ⟨er, _, _, _⟩ := loadAdded_tracked_proj beh tracked e rest d htr
      rw [er] at hrec
      obtain ⟨e2, he2, h⟩ := ih _ rec hrec
      exact ⟨e2, List.mem_cons_of_mem e he2, h⟩
    | false =>
      obtain ⟨er, _, _, _⟩ := loadAdded_new_proj beh tracked e rest d htr
      rw [er] at hrec
      rcases List.mem_cons.mp hrec with rfl | hrec
      · exact ⟨e, List.mem_cons_self e rest,
          attemptLoad_path beh d e.1 e.2, attemptLoad_fingerprint beh d e.1 e.2⟩
      · obtain ⟨e2, he2, h⟩ := ih _ rec hrec
        exact ⟨e2, List.mem_cons_of_mem e he2, h⟩

/-- One sync cycle written out as its two passes. -/
theorem syncCycle_eq (beh : ModuleBeh) (s : SchedState)
    (snap : List (String × Nat)) :
    syncCycle beh s snap =
      (⟨(reconcileOld beh snap s.records s.dispatch).recs ++
          (loadAdded beh (s.records.map ModuleRecord.path) snap
            (reconcileOld beh snap s.records s.dispatch).disp).recs,
        (loadAdded beh (s.records.map ModuleRecord.path) snap
          (reconcileOld beh snap s.records s.dispatch).disp).disp⟩,
       ⟨(reconcileOld beh snap s.records s.dispatch).loads +
          (loadAdded beh (s.records.map ModuleRecord.path) snap
            (reconcileOld beh snap s.records s.dispatch).disp).loads,
        (reconcileOld beh snap s.records s.dispatch).unloads +
          (loadAdded beh (s.records.map ModuleRecord.path) snap
            (reconcileOld beh snap s.records s.dispatch).disp).unloads⟩) := rfl

/-- After a cycle over a duplicate-free snapshot, every tracked record
carries exactly the snapshot fingerprint of its path. -/
theorem syncCycle_fpMatch (beh : ModuleBeh) (s : SchedState)
    (snap : List (String × Nat)) (hsnap : (snap.map Prod.fst).Nodup) :
    ∀ rec ∈ (syncCycle beh s snap).1.records,
      lookupFp snap rec.path = some rec.fingerprint := by
  intro rec hrec
  rcases List.mem_append.mp hrec with h | h
  · exact reconcileOld_fpMatch beh snap s.records s.dispatch rec h
  · obtain ⟨e, he, hp, hf⟩ := loadAdded_src beh _ snap _ rec h
    rw [hp, hf]
    exact lookupFp_of_mem hsnap he

/-- After a cycle, every snapshot path has a tracked record. -/
theorem syncCycle_covers (beh : ModuleBeh) (s : SchedState)
    (snap : List (String × Nat)) :
    ∀ e ∈ snap, ∃ rec ∈ (syncCycle beh s snap).1.records, rec.path = e.1 := by
  intro e he
  cases htr : (s.records.map ModuleRecord.path).contains e.1 with
  | true =>
    have hmem : e.1 ∈ s.records.map ModuleRecord.path := contains_iff.mp htr
    obtain ⟨r0, hr0, hpath⟩ := List.mem_map.mp hmem
    obtain ⟨f, hf⟩ := lookupFp_isSome_of_mem he
    have hsome : (lookupFp snap r0.path).isSome = true := by
      rw [hpath, hf]
      rfl
    have hin : r0.path ∈ (reconcileOld beh snap s.records
        s.dispatch).recs.map ModuleRecord.path := by
      rw [reconcileOld_pathsEq]
      exact List.mem_map.mpr ⟨r0, List.mem_filter.mpr ⟨hr0, hsome⟩, rfl⟩
    obtain ⟨rec, hrec, hrp⟩ := List.mem_map.mp hin
    exact ⟨rec, List.mem_append.mpr (Or.inl hrec), by rw [hrp, hpath]⟩
  | false =>
    have hin : e.1 ∈ (loadAdded beh (s.records.map ModuleRecord.path) snap
        (reconcileOld beh snap s.records s.dispatch).disp).recs.map
          ModuleRecord.path := by
      rw [loadAdded_pathsEq]
      exact List.mem_map.mpr ⟨e, List.mem_filter.mpr ⟨he, by rw [htr]; rfl⟩, rfl⟩
    obtain ⟨rec, hrec, hrp⟩ := List.mem_map.mp hin
    exact ⟨rec, List.mem_append.mpr (Or.inr hrec), hrp⟩

/-- Reconciliation is the identity when every tracked fingerprint matches
the snapshot: no load call, no unload call. -/
theorem reconcileOld_unchangedAll (beh : ModuleBeh)
    (snap : List (String × Nat)) :
    ∀ (rs : List ModuleRecord) (d : DispatchState),
      (∀ r ∈ rs, lookupFp snap r.path = some r.fingerprint) →
      reconcileOld beh snap rs d = ⟨rs, d, 0, 0⟩ := by
  intro rs
  induction rs with
  | nil => intro d _; exact reconcileOld_nil beh snap d
  | cons r rs ih =>
    intro d hall
    rw [reconcileOld_cons_kept beh snap r rs d r.fingerprint
      (hall r (List.mem_cons_self r rs)) rfl,
      ih d (fun q hq => hall q (List.mem_cons_of_mem r hq))]

/-- The added pass does nothing when every snapshot path is tracked: no
load call. -/
theorem loadAdded_allTracked (beh : ModuleBeh) (tracked : List String) :
    ∀ (snap : List (String × Nat)) (d : DispatchState),
      (∀ e ∈ snap, tracked.contains e.1 = true) →
      loadAdded beh tracked snap d = ⟨[], d, 0, 0⟩ := by
  intro snap
  induction snap with
  | nil => intro d _; exact loadAdded_nil beh tracked d
  | cons e rest ih =>
    intro d hall
    rw [loadAdded_cons_tracked beh tracked e rest d
      (hall e (List.mem_cons_self e rest)),
      ih d (fun q hq => hall q (List.mem_cons_of_mem e hq))]

/-- C5: when no fingerprint changed between two consecutive cycles — the
second cycle runs on the same duplicate-free snapshot as the first — the
second cycle performs zero load calls and zero unload calls and leaves the
scheduler state untouched. -/
theorem unchangedCycleNoCalls (beh : ModuleBeh) (s : SchedState)
    (snap : List (String × Nat)) (hsnap : (snap.map Prod.fst).Nodup) :
    syncCycle beh (syncCycle beh s snap).1 snap
      = ((syncCycle beh s snap).1, ⟨0, 0⟩) := by
  have hfp := syncCycle_fpMatch beh s snap hsnap
  have hrec : reconcileOld beh snap (syncCycle beh s snap).1.records
      (syncCycle beh s snap).1.dispatch
      = ⟨(syncCycle beh s snap).1.records,
         (syncCycle beh s snap).1.dispatch, 0, 0⟩ :=
    reconcileOld_unchangedAll beh snap _ _ hfp
  have htrk : ∀ e ∈ snap,
      ((syncCycle beh s snap).1.records.map ModuleRecord.path).contains e.1
        = true := by
    intro e he
    obtain ⟨rec, hrec2, hrp⟩ := syncCycle_covers beh s snap e he
    exact contains_iff.mpr (List.mem_map.mpr ⟨rec, hrec2, hrp⟩)
  rw [syncCycle_eq beh (syncCycle beh s snap).1 snap, hrec,
    loadAdded_allTracked beh _ snap _ htrk]
  simp

/-- Witness for C5 at a concrete behaviour, start state and snapshot. -/
theorem unchangedCycleNoCalls_witness :
    syncCycle demoBeh (syncCycle demoBeh initState [("x", 1)]).1 [("x", 1)]
      = ((syncCycle demoBeh initState [("x", 1)]).1, ⟨0, 0⟩) :=
  unchangedCycleNoCalls demoBeh initState [("x", 1)] (by decide)

/-- A tracked record whose fingerprint changed to one that fails to load
leaves, among the surviving records, the inert record: same path, new
fingerprint, `Failed`, no subscriptions. -/
theorem reconcileOld_changedFail (beh : ModuleBeh)
    (snap : List (String × Nat)) :
    ∀ (rs : List ModuleRecord) (d : DispatchState) (r : ModuleRecord)
      (f : Nat), r ∈ rs → lookupFp snap r.path = some f →
      ¬f = r.fingerprint → beh r.path f = .loadFail →
      (⟨r.path, f, .Failed, []⟩ : ModuleRecord)
        ∈ (reconcileOld beh snap rs d).recs := by
  intro rs
  induction rs with
  | nil => intro d r f hr; cases hr
  | cons r0 rs ih =>
    intro d r f hr hlk hne hb
    rcases List.mem_cons.mp hr with rfl | hr
    · obtain ⟨er, _, _, _⟩ := reconcileOld_changed_proj beh snap r rs d f hlk hne
      rw [er]
      have hhead : (attemptLoad beh (removeSubs d r.subs) r.path f).2
          = ⟨r.path, f, .Failed, []⟩ := by
        unfold attemptLoad
        rw [hb]
      rw [hhead]
      exact List.mem_cons_self _ _
    · cases hlk0 : lookupFp snap r0.path with
      | none =>
        obtain ⟨er, _, _, _⟩ := reconcileOld_removed_proj beh snap r0 rs d hlk0
        rw [er]
        exact ih _ r f hr hlk hne hb
      | some f0 =>
        by_cases hf0 : f0 = r0.fingerprint
        · obtain ⟨er, _, _, _⟩ :=
            reconcileOld_kept_proj beh snap r0 rs d f0 hlk0 hf0
          rw [er]
          exact List.mem_cons_of_mem _ (ih _ r f hr hlk hne hb)
        · obtain ⟨er, _, _, _⟩ :=
            reconcileOld_changed_proj beh snap r0 rs d f0 hlk0 hf0
          rw [er]
          exact List.mem_cons_of_mem _ (ih _ r f hr hlk hne hb)

/-- When the record paths have no duplicate, a path determines its
record. -/
theorem paths_nodup_unique {recs : List ModuleRecord}
    (h : (recs.map ModuleRecord.path).Nodup) :
    ∀ r1 ∈ recs, ∀ r2 ∈ recs, r1.path = r2.path → r1 = r2 := by
  induction recs with
  | nil => intro r1 h1; cases h1
  | cons r t ih =>
    rw [List.map_cons, List.nodup_cons] at h
    intro r1 h1 r2 h2 hp
    rcases List.mem_cons.mp h1 with he1 | ht1
    · rcases List.mem_cons.mp h2 with he2 | ht2
      · rw [he1, he2]
      · exact absurd (List.mem_map.mpr ⟨r2, ht2, by rw [← hp, he1]⟩) h.1
    · rcases List.mem_cons.mp h2 with he2 | ht2
      · exact absurd (List.mem_map.mpr ⟨r1, ht1, by rw [hp, he2]⟩) h.1
      · exact ih h.2 r1 ht1 r2 ht2 hp

/-- A cycle over duplicate-free tracked paths and snapshot keys leaves
duplicate-free tracked paths. -/
theorem syncCycle_pathsNodup (beh : ModuleBeh) (s : SchedState)
    (snap : List (String × Nat))
    (hpaths : (s.records.map ModuleRecord.path).Nodup)
    (hsnap : (snap.map Prod.fst).Nodup) :
    ((syncCycle beh s snap).1.records.map ModuleRecord.path).Nodup := by
  show (((reconcileOld beh snap s.records s.dispatch).recs ++
    (loadAdded beh (s.records.map ModuleRecord.path) snap
      (reconcileOld beh snap s.records s.dispatch).disp).recs).map
        ModuleRecord.path).Nodup
  rw [List.map_append, List.nodup_append]
  refine ⟨?_, ?_, ?_⟩
  · rw [reconcileOld_pathsEq]
    exact List.Nodup.sublist
      (List.Sublist.map ModuleRecord.path (List.filter_sublist _)) hpaths
  · rw [loadAdded_pathsEq]
    exact List.Nodup.sublist
      (List.Sublist.map Prod.fst (List.filter_sublist _)) hsnap
  · intro x hx1 hx2
    rw [reconcileOld_pathsEq] at hx1
    rw [loadAdded_pathsEq] at hx2
    obtain ⟨r0, hr0, hp0⟩ := List.mem_map.mp hx1
    obtain ⟨e, he, hpe⟩ := List.mem_map.mp hx2
    have hr0m := (List.mem_filter.mp hr0).1
    have hef := (List.mem_filter.mp he).2
    have hxin : x ∈ s.records.map ModuleRecord.path :=
      List.mem_map.mpr ⟨r0, hr0m, hp0⟩
    have hein : e.1 ∈ s.records.map ModuleRecord.path := hpe ▸ hxin
    rw [contains_iff.mpr hein] at hef
    cases hef

/-- Every record surviving a cycle either is an untouched input record
whose snapshot fingerprint matches, or owns only handles issued during the
cycle. -/
theorem syncCycle_provenance (beh : ModuleBeh) (s : SchedState)
    (snap : List (String × Nat)) (h : invariant s) :
    ∀ rec ∈ (syncCycle beh s snap).1.records,
      (rec ∈ s.records ∧ lookupFp snap rec.path = some rec.fingerprint) ∨
      ∀ x ∈ rec.subs, s.dispatch.nextId ≤ x := by
  obtain ⟨hwf, hperm, hst⟩ := h
  obtain ⟨h1, h2, _, _, h5⟩ := reconcileOld_spec beh snap s.records
    s.dispatch [] hwf (by simpa using hperm) hst
  obtain ⟨_, _, _, _, g5⟩ := loadAdded_spec beh
    (s.records.map ModuleRecord.path) snap
    (reconcileOld beh snap s.records s.dispatch).disp h1
  intro rec hrec
  rcases List.mem_append.mp hrec with hr | hr
  · exact h5 rec hr
  · refine Or.inr (fun x hx => ?_)
    have := g5 rec hr x hx
    omega

/-- C4: a tracked path whose fingerprint changed is first unloaded; when
the reload fails, the path is tracked as `Failed` with the new fingerprint
and zero subscriptions — it is the unique record at that path, and none of
the old record's handles stays active: the command is inert, not reverted. -/
theorem changedLoadFailInert (beh : ModuleBeh) (s : SchedState)
    (snap : List (String × Nat)) (r : ModuleRecord) (f : Nat)
    (hinv : invariant s)
    (hpaths : (s.records.map ModuleRecord.path).Nodup)
    (hsnap : (snap.map Prod.fst).Nodup)
    (hr : r ∈ s.records)
    (hlk : lookupFp snap r.path = some f)
    (hne : ¬f = r.fingerprint)
    (hb : beh r.path f = .loadFail) :
    (⟨r.path, f, .Failed, []⟩ : ModuleRecord)
      ∈ (syncCycle beh s snap).1.records ∧
    (∀ rec ∈ (syncCycle beh s snap).1.records,
      rec.path = r.path → rec = ⟨r.path, f, .Failed, []⟩) ∧
    (∀ x ∈ r.subs, x ∉ (syncCycle beh s snap).1.dispatch.active) := by
  have hmem : (⟨r.path, f, .Failed, []⟩ : ModuleRecord)
      ∈ (syncCycle beh s snap).1.records :=
    List.mem_append.mpr (Or.inl (reconcileOld_changedFail beh snap
      s.records s.dispatch r f hr hlk hne hb))
  have hnd := syncCycle_pathsNodup beh s snap hpaths hsnap
  refine ⟨hmem, ?_, ?_⟩
  · intro rec hrec hrp
    exact paths_nodup_unique hnd rec hrec ⟨r.path, f, .Failed, []⟩ hmem hrp
  · intro x hx hact
    have hinv2 := syncCycle_invariant beh s snap hinv
    have hxo : x ∈ activeOwned (syncCycle beh s snap).1.records :=
      hinv2.2.1.mem_iff.mp hact
    obtain ⟨rec, hrec, hxr⟩ := mem_activeOwned.mp hxo
    have hxorig : x ∈ s.dispatch.active :=
      hinv.2.1.mem_iff.mpr (mem_activeOwned.mpr ⟨r, hr, hx⟩)
    have hxlt : x < s.dispatch.nextId :=
      DispatchState.wf_bound hinv.1 x hxorig
    rcases syncCycle_provenance beh s snap hinv rec hrec with
      ⟨hro, hrl⟩ | hfresh
    · have heq : rec = r := owned_nodup_unique
        (invariant_owned_nodup hinv) rec hro r hr x hxr hx
      rw [heq, hlk] at hrl
      exact hne (Option.some.inj hrl)
    · have := hfresh x hxr
      omega

/-- Witness for C4: the concrete one-module state, a snapshot changing the
fingerprint to a failing one. -/
theorem changedLoadFailInert_witness :
    (⟨"x", 2, .Failed, []⟩ : ModuleRecord)
      ∈ (syncCycle demoBeh demoS1 [("x", 2)]).1.records ∧
    (∀ rec ∈ (syncCycle demoBeh demoS1 [("x", 2)]).1.records,
      rec.path = "x" → rec = ⟨"x", 2, .Failed, []⟩) ∧
    (∀ x ∈ [0], x ∉ (syncCycle demoBeh demoS1 [("x", 2)]).1.dispatch.active) :=
  changedLoadFailInert demoBeh demoS1 [("x", 2)] ⟨"x", 1, .Loaded, [0]⟩ 2
    (by unfold invariant DispatchState.wf activeOwned; decide)
    (by decide) (by decide) (by decide) (by decide) (by decide) (by decide)

/-- View of the empty record list. -/
theorem recordView_nil (p : String) : recordView p [] = [] := rfl

/-- View of a cons whose head sits at another path. -/
theorem recordView_cons_ne (p : String) (r : ModuleRecord)
    (recs : List ModuleRecord) (h : ¬r.path = p) :
    recordView p (r :: recs)
      = (r.path, r.fingerprint, r.status, r.subs.length)
          :: recordView p recs := by
  unfold recordView
  rw [List.filter_cons_of_pos (by simpa using h), List.map_cons]

/-- View of a cons whose head sits at the distinguished path. -/
theorem recordView_cons_eq (p : String) (r : ModuleRecord)
    (recs : List ModuleRecord) (h : r.path = p) :
    recordView p (r :: recs) = recordView p recs := by
  unfold recordView
  rw [List.filter_cons_of_neg (by simpa using h)]

/-- View of an append of record lists. -/
theorem recordView_append (p : String) (l1 l2 : List ModuleRecord) :
    recordView p (l1 ++ l2) = recordView p l1 ++ recordView p l2 := by
  unfold recordView
  rw [List.filter_append, List.map_append]

/-- Two behaviours agreeing on a file produce view-equal records for it,
whatever the dispatch states. -/
theorem attemptLoad_view (beh beh2 : ModuleBeh) (d d2 : DispatchState)
    (q : String) (fp : Nat) (h : beh q fp = beh2 q fp) :
    ((attemptLoad beh d q fp).2.path, (attemptLoad beh d q fp).2.fingerprint,
      (attemptLoad beh d q fp).2.status,
      (attemptLoad beh d q fp).2.subs.length)
    = ((attemptLoad beh2 d2 q fp).2.path,
        (attemptLoad beh2 d2 q fp).2.fingerprint,
        (attemptLoad beh2 d2 q fp).2.status,
        (attemptLoad beh2 d2 q fp).2.subs.length) := by
  unfold attemptLoad
  rw [← h]
  cases beh q fp with
  | loadFail => rfl
  | loaded r =>
    cases r with
    | ok n => simp [issueIds, List.length_range']
    | throws n => rfl

/-- Reconciliation seen away from one path does not depend on that path's
behaviour nor on the dispatch state. -/
theorem reconcileOld_view (beh beh2 : ModuleBeh) (snap : List (String × Nat))
    (p : String) (hag : ∀ q fp, ¬q = p → beh q fp = beh2 q fp) :
    ∀ (rs : List ModuleRecord) (d d2 : DispatchState),
      recordView p (reconcileOld beh snap rs d).recs
        = recordView p (reconcileOld beh2 snap rs d2).recs := by
  intro rs
  induction rs with
  | nil => intro d d2; rw [reconcileOld_nil, reconcileOld_nil]
  | cons r rs ih =>
    intro d d2
    cases hlk : lookupFp snap r.path with
    | none =>
      obtain ⟨er, _, _, _⟩ := reconcileOld_removed_proj beh snap r rs d hlk
      obtain ⟨er2, _, _, _⟩ := reconcileOld_removed_proj beh2 snap r rs d2 hlk
      rw [er, er2]
      exact ih _ _
    | some f =>
      by_cases hf : f = r.fingerprint
      · obtain ⟨er, _, _, _⟩ :=
          reconcileOld_kept_proj beh snap r rs d f hlk hf
        obtain ⟨er2, _, _, _⟩ :=
          reconcileOld_kept_proj beh2 snap r rs d2 f hlk hf
        rw [er, er2]
        by_cases hp : r.path = p
        · rw [recordView_cons_eq p r _ hp, recordView_cons_eq p r _ hp]
          exact ih d d2
        · rw [recordView_cons_ne p r _ hp, recordView_cons_ne p r _ hp,
            ih d d2]
      · obtain ⟨er, _, _, _⟩ :=
          reconcileOld_changed_proj beh snap r rs d f hlk hf
        obtain ⟨er2, _, _, _⟩ :=
          reconcileOld_changed_proj beh2 snap r rs d2 f hlk hf
        rw [er, er2]
        by_cases hp : r.path = p
        · rw [recordView_cons_eq p _ _
              ((attemptLoad_path beh _ r.path f).trans hp),
            recordView_cons_eq p _ _
              ((attemptLoad_path beh2 _ r.path f).trans hp)]
          exact ih _ _
        · have hne1 : ¬(attemptLoad beh (removeSubs d r.subs)
              r.path f).2.path = p := by
            rw [attemptLoad_path]; exact hp
          have hne2 : ¬(attemptLoad beh2 (removeSubs d2 r.subs)
              r.path f).2.path = p := by
            rw [attemptLoad_path]; exact hp
          rw [recordView_cons_ne p _ _ hne1, recordView_cons_ne p _ _ hne2]
          have hview := attemptLoad_view beh beh2 (removeSubs d r.subs)
            (removeSubs d2 r.subs) r.path f (hag r.path f hp)
          rw [Prod.mk.injEq, Prod.mk.injEq, Prod.mk.injEq] at hview
          rw [hview.1, hview.2.1, hview.2.2.1, hview.2.2.2,
            ih (attemptLoad beh (removeSubs d r.subs) r.path f).1
              (attemptLoad beh2 (removeSubs d2 r.subs) r.path f).1]

/-- The added pass seen away from one path does not depend on that path's
behaviour nor on the dispatch state. -/
theorem loadAdded_view (beh beh2 : ModuleBeh) (tracked : List String)
    (p : String) (hag : ∀ q fp, ¬q = p → beh q fp = beh2 q fp) :
    ∀ (snap : List (String × Nat)) (d d2 : DispatchState),
      recordView p (loadAdded beh tracked snap d).recs
        = recordView p (loadAdded beh2 tracked snap d2).recs := by
  intro snap
  induction snap with
  | nil => intro d d2; rw [loadAdded_nil, loadAdded_nil]
  | cons e rest ih =>
    intro d d2
    cases htr : tracked.contains e.1 with
    | true =>
      obtain ⟨er, _, _, _⟩ := loadAdded_tracked_proj beh tracked e rest d htr
      obtain ⟨er2, _, _, _⟩ := loadAdded_tracked_proj beh2 tracked e rest d2 htr
      rw [er, er2]
      exact ih _ _
    | false =>
      obtain ⟨er, _, _, _⟩ := loadAdded_new_proj beh tracked e rest d htr
      obtain ⟨er2, _, _, _⟩ := loadAdded_new_proj beh2 tracked e rest d2 htr
      rw [er, er2]
      by_cases hp : e.1 = p
      · rw [recordView_cons_eq p _ _
            ((attemptLoad_path beh d e.1 e.2).trans hp),
          recordView_cons_eq p _ _
            ((attemptLoad_path beh2 d2 e.1 e.2).trans hp)]
        exact ih _ _
      · have hne1 : ¬(attemptLoad beh d e.1 e.2).2.path = p := by
          rw [attemptLoad_path]; exact hp
        have hne2 : ¬(attemptLoad beh2 d2 e.1 e.2).2.path = p := by
          rw [attemptLoad_path]; exact hp
        rw [recordView_cons_ne p _ _ hne1, recordView_cons_ne p _ _ hne2]
        have hview := attemptLoad_view beh beh2 d d2 e.1 e.2
          (hag e.1 e.2 hp)
        rw [Prod.mk.injEq, Prod.mk.injEq, Prod.mk.injEq] at hview
        rw [hview.1, hview.2.1, hview.2.2.1, hview.2.2.2,
          ih (attemptLoad beh d e.1 e.2).1 (attemptLoad beh2 d2 e.1 e.2).1]

/-- Counterexample for C3 as stated: a working module (cycle one loads path
`x` with one active subscription) whose fingerprint then changes to a
failing one is torn down by cycle two — the record is `Failed` with no
subscriptions and nothing stays active, so the previous working version is
not left registered. -/
theorem loadErrorTearsDownPrevious :
    (syncCycle demoBeh initState [("x", 1)]).1
      = ⟨[⟨"x", 1, .Loaded, [0]⟩], ⟨1, [0], []⟩⟩ ∧
    (syncCycle demoBeh (syncCycle demoBeh initState [("x", 1)]).1
        [("x", 2)]).1
      = ⟨[⟨"x", 2, .Failed, []⟩], ⟨1, [], [0]⟩⟩ :=
  ⟨by decide, by decide⟩

/-- C3 (amended): a load failure is isolated — every other file's record
(path, fingerprint, status, subscription count) is exactly what it would be
under any behaviour agreeing on the other files; and for a file whose
changed fingerprint fails to load, the previous version was already
unloaded, so the path is tracked as `Failed` with no subscriptions rather
than keeping the previous working version registered. -/
theorem loadFailureIsolation :
    (∀ (beh beh2 : ModuleBeh) (p : String) (s : SchedState)
        (snap : List (String × Nat)),
      (∀ q fp, ¬q = p → beh q fp = beh2 q fp) →
      recordView p (syncCycle beh s snap).1.records
        = recordView p (syncCycle beh2 s snap).1.records) ∧
    (∀ (beh : ModuleBeh) (s : SchedState) (snap : List (String × Nat))
        (r : ModuleRecord) (f : Nat),
      r ∈ s.records → lookupFp snap r.path = some f → ¬f = r.fingerprint →
      beh r.path f = .loadFail →
      (⟨r.path, f, .Failed, []⟩ : ModuleRecord)
        ∈ (syncCycle beh s snap).1.records) := by
  constructor
  · intro beh beh2 p s snap hag
    show recordView p
        ((reconcileOld beh snap s.records s.dispatch).recs ++
          (loadAdded beh (s.records.map ModuleRecord.path) snap
            (reconcileOld beh snap s.records s.dispatch).disp).recs)
      = recordView p
        ((reconcileOld beh2 snap s.records s.dispatch).recs ++
          (loadAdded beh2 (s.records.map ModuleRecord.path) snap
            (reconcileOld beh2 snap s.records s.dispatch).disp).recs)
    rw [recordView_append, recordView_append,
      reconcileOld_view beh beh2 snap p hag s.records s.dispatch s.dispatch,
      loadAdded_view beh beh2 (s.records.map ModuleRecord.path) p hag snap
        (reconcileOld beh snap s.records s.dispatch).disp
        (reconcileOld beh2 snap s.records s.dispatch).disp]
  · intro beh s snap r f hr hlk hne hb
    exact List.mem_append.mpr (Or.inl (reconcileOld_changedFail beh snap
      s.records s.dispatch r f hr hlk hne hb))

/-- Witness for the amended C3: isolation evaluated between the two
concrete behaviours differing only at path `y`, and the inert `Failed`
record at the concrete changed-and-failing path `x`. -/
theorem loadFailureIsolation_witness :
    recordView "y"
        (syncCycle demoBeh initState [("y", 2), ("x", 1)]).1.records
      = recordView "y"
        (syncCycle demoBeh2 initState [("y", 2), ("x", 1)]).1.records ∧
    (⟨"x", 2, .Failed, []⟩ : ModuleRecord)
      ∈ (syncCycle demoBeh demoS1 [("x", 2)]).1.records :=
  ⟨loadFailureIsolation.1 demoBeh demoBeh2 "y" initState
      [("y", 2), ("x", 1)]
      (fun q fp hq => by unfold demoBeh2; rw [if_neg hq]),
   loadFailureIsolation.2 demoBeh demoS1 [("x", 2)]
      ⟨"x", 1, .Loaded, [0]⟩ 2 (by decide) (by decide) (by decide)
      (by decide)⟩
